import Mathlib

/-!
Verification of the IFC optimizer core (`src/optimizer.py`) against its
specification.  The entity graph kept by the external `ifcopenshell`
library is embedded shallowly: an entity is an identified, typed record
whose attribute values are primitives or (lists of) references by id;
a model is the list of entities together with oracles standing for the
external geometry kernel (`create_shape`, `get_volume`) and for the
possibility that the external `remove` call raises (several passes wrap
`model.remove` in `try/except`, so that behaviour is observable).
Each optimization pass of `optimizer.py` is translated as a function on
this model; fallible code returns `Except String`.
-/

set_option linter.unusedVariables false

/-- Attribute values of an entity: primitives, strings, references by id,
and flat lists of references or numbers (Python floats are modelled as
rationals; none of the claims depends on rounding).  `vnone` is Python's
`None`. -/
inductive AttrValue where
  | vstr (s : String)
  | vnum (q : ℚ)
  | vbool (b : Bool)
  | vref (i : Nat)
  | vrefList (l : List Nat)
  | vnumList (l : List ℚ)
  | vnone
deriving DecidableEq, Repr

/-- An entity record: stable integer id, concrete type tag (`is_a()`),
its supertype tags (so `is_a("IfcElement")` on an `IfcWall` holds), and
named attributes. -/
structure Entity where
  id : Nat
  typ : String
  supers : List String
  attrs : List (String × AttrValue)
deriving DecidableEq, Repr

/-- The in-memory model: all entities plus the id counter for entities the
simplification pass creates, and oracles for the external library calls:
`removeFails i` models `model.remove` raising on entity `i`,
`volumeOf i` models `ifcopenshell.util.shape.get_volume` (`none` is both
`None` and a raised error, which the source treats alike), and
`shapeOf i` models `ifcopenshell.geom.create_shape` returning the mesh
vertex/face buffers. -/
structure Model where
  entities : List Entity
  nextId : Nat
  removeFails : Nat → Bool
  volumeOf : Nat → Option ℚ
  shapeOf : Nat → Option (List ℚ × List Nat)

/-- `entity.is_a(t)`: the concrete type or any supertype matches. -/
def Entity.isA (e : Entity) (t : String) : Bool :=
  e.typ == t || e.supers.contains t

/-- All entity ids referenced from the attributes of `e` (direct references
and references nested in list attributes). -/
def refsOf (e : Entity) : List Nat :=
  e.attrs.foldr (fun a acc =>
    match a.2 with
    | .vref i => i :: acc
    | .vrefList l => l ++ acc
    | _ => acc) []

/-- Attribute lookup, `getattr(e, n)` for an attribute that exists;
`none` when the entity has no such attribute (`hasattr` false). -/
def getAttr (e : Entity) (n : String) : Option AttrValue :=
  (e.attrs.find? (fun a => a.1 == n)).map Prod.snd

/-- `model.by_type(t)` with schema inheritance. -/
def Model.byType (m : Model) (t : String) : List Entity :=
  m.entities.filter (fun e => e.isA t)

/-- `model.get_inverse(i)`: every entity holding a reference to `i`. -/
def Model.getInverse (m : Model) (i : Nat) : List Entity :=
  m.entities.filter (fun e => (refsOf e).contains i)

/-- Drop entity `i` from the store (the effect of a successful
`model.remove`). -/
def Model.removeEntity (m : Model) (i : Nat) : Model :=
  { m with entities := m.entities.filter (fun e => !(e.id == i)) }

/-- Resolve an id to its entity. -/
def Model.findEntity (m : Model) (i : Nat) : Option Entity :=
  m.entities.find? (fun e => e.id == i)

/-- `model.create_entity` / `model.createIfc...`: a fresh entity under a
fresh id, appended to the store. -/
def Model.createEntity (m : Model) (typ : String) (supers : List String)
    (attrs : List (String × AttrValue)) : Nat × Model :=
  (m.nextId,
   { m with
     entities := m.entities ++ [⟨m.nextId, typ, supers, attrs⟩],
     nextId := m.nextId + 1 })

/-- Python truthiness of an attribute value. -/
def AttrValue.pyTruthy : AttrValue → Bool
  | .vstr s => !(s == "")
  | .vnum q => !(q == 0)
  | .vbool b => b
  | .vref _ => true
  | .vrefList l => !l.isEmpty
  | .vnumList l => !l.isEmpty
  | .vnone => false

/-- Truthiness of `options.get(key, False)`. -/
def truthyOpt : Option AttrValue → Bool
  | none => false
  | some v => v.pyTruthy

/-- `value in ("", None, 0, 0.0, "NOTDEFINED")` (optimizer.py line 463).
Python's `False == 0`, so a boolean `false` matches as well. -/
def isEmptySentinel : AttrValue → Bool
  | .vstr s => s == "" || s == "NOTDEFINED"
  | .vnum q => q == 0
  | .vbool b => !b
  | .vnone => true
  | _ => false

/-- Python `str(...)` at the granularity the deduplication fingerprint
needs (numbers, `None`, strings). -/
def pyStr : AttrValue → String
  | .vstr s => s
  | .vnum q => toString q
  | .vbool b => if b then "True" else "False"
  | .vnone => "None"
  | .vref i => "#" ++ toString i
  | .vrefList _ => "(refs)"
  | .vnumList _ => "(nums)"

/-- A simple unsigned decimal parser standing for Python `float(str)`;
it covers the numeric literals a threshold option would carry (digits
with at most one decimal point). -/
def parseDecimal (s : String) : Option ℚ :=
  let rec go : List Char → Option (ℚ × Bool × ℚ) → Option (ℚ × Bool × ℚ)
    | [], st => st
    | c :: cs, some (acc, seenDot, scale) =>
      if c == '.' then
        if seenDot then none else go cs (some (acc, true, scale))
      else if c.isDigit then
        let d : ℚ := (c.toNat - '0'.toNat : ℕ)
        if seenDot then go cs (some (acc + d * scale / 10, true, scale / 10))
        else go cs (some (acc * 10 + d, false, scale))
      else none
    | _, none => none
  if s.isEmpty then none
  else match go s.toList (some (0, false, 1)) with
    | some (q, _, _) => some q
    | none => none

/-- Python `float(value)` over option values (optimizer.py line 61):
booleans convert (`float(False) = 0.0`), numbers pass through, strings
parse or raise `ValueError`, anything else raises `TypeError`. -/
def pyFloat : AttrValue → Except String ℚ
  | .vnum q => .ok q
  | .vbool b => .ok (if b then 1 else 0)
  | .vstr s =>
    match parseDecimal s with
    | some q => .ok q
    | none => .error "ValueError: could not convert string to float"
  | _ => .error "TypeError: float() argument"

/-- The relationship kinds exempted from the "in use" test of unused-space
pruning (optimizer.py line 488): placement edges and property-assignment
edges. -/
def exemptRef (r : Entity) : Bool :=
  r.isA "IfcLocalPlacement" || r.isA "IfcRelDefinesByProperties"

/-- The pruning condition of `remove_unused_spaces` (lines 486-489): no
inverse reference that is not of an exempted kind. -/
def spaceUnused (m : Model) (s : Entity) : Bool :=
  !((m.getInverse s.id).any (fun r => !(exemptRef r)))

/-- `remove_unused_spaces` (optimizer.py lines 482-493): collect the
unused spaces against the unmutated model, then remove them; the count is
the length of the collected list.  `model.remove` here is not guarded by
`try/except`, so a failing removal propagates out of the pass. -/
def remove_unused_spaces (m : Model) : Except String (Nat × Model) := do
  let unused := (m.byType "IfcSpace").filter (fun s => spaceUnused m s)
  let m' ← unused.foldlM (fun (cur : Model) s =>
    if cur.removeFails s.id then Except.error "remove failed"
    else Except.ok (cur.removeEntity s.id)) m
  return (unused.length, m')

/-- `remove_metadata` (optimizer.py lines 472-480): keep the first
`IfcOwnerHistory`, remove the rest, count the removals.  The removals are
unguarded, so a failing `model.remove` propagates. -/
def remove_metadata (m : Model) : Except String (Nat × Model) :=
  match m.byType "IfcOwnerHistory" with
  | [] => .ok (0, m)
  | _ :: rest =>
    rest.foldlM (fun (acc : Nat × Model) h =>
      if acc.2.removeFails h.id then Except.error "remove failed"
      else Except.ok (acc.1 + 1, acc.2.removeEntity h.id)) (0, m)

/-- Per-entity step of `remove_empty_attributes` (lines 458-469): count
the attributes whose value is an empty sentinel and set them to `None`.
(`get_info` lists exactly the entity's attributes, so the `hasattr` guard
always passes; the surrounding `try/except` never fires here.) -/
def clearEntityAttrs (e : Entity) : Nat × Entity :=
  ((e.attrs.filter (fun a => isEmptySentinel a.2)).length,
   { e with attrs := e.attrs.map (fun a =>
      if isEmptySentinel a.2 then (a.1, AttrValue.vnone) else a) })

/-- `remove_empty_attributes` (optimizer.py lines 455-470). -/
def remove_empty_attributes (m : Model) : Except String (Nat × Model) :=
  .ok (m.entities.foldl (fun acc e => acc + (clearEntityAttrs e).1) 0,
       { m with entities := m.entities.map (fun e => (clearEntityAttrs e).2) })

/-- `remove_unused_property_sets` (optimizer.py lines 495-508): a property
set is removed when it has no properties (`not pset.HasProperties or
len(...) == 0`, i.e. the attribute is falsy) and no inverse references;
the inner loop over `get_inverse` is dead because the condition already
requires it to be empty.  Removal is guarded by `try/except`.  The
attribute access `pset.HasProperties` happens outside the `try`, so a
property set lacking the attribute raises out of the pass. -/
def remove_unused_property_sets (m : Model) : Except String (Nat × Model) :=
  (m.byType "IfcPropertySet").foldlM (fun (acc : Nat × Model) pset => do
    let hp ← match getAttr pset "HasProperties" with
      | some v => Except.ok v
      | none => Except.error "AttributeError: HasProperties"
    if !hp.pyTruthy && (acc.2.getInverse pset.id).isEmpty then
      if acc.2.removeFails pset.id then Except.ok acc
      else Except.ok (acc.1 + 1, acc.2.removeEntity pset.id)
    else Except.ok acc) (0, m)

/-- `remove_unused_materials` (optimizer.py lines 510-520): remove every
`IfcMaterial` without inverse references; removal guarded by
`try/except`. -/
def remove_unused_materials (m : Model) : Except String (Nat × Model) :=
  (m.byType "IfcMaterial").foldlM (fun (acc : Nat × Model) mat =>
    if (acc.2.getInverse mat.id).isEmpty then
      if acc.2.removeFails mat.id then Except.ok acc
      else Except.ok (acc.1 + 1, acc.2.removeEntity mat.id)
    else Except.ok acc) (0, m)

/-- `remove_unused_classifications` (optimizer.py lines 522-532). -/
def remove_unused_classifications (m : Model) : Except String (Nat × Model) :=
  (m.byType "IfcClassificationReference").foldlM (fun (acc : Nat × Model) cls =>
    if (acc.2.getInverse cls.id).isEmpty then
      if acc.2.removeFails cls.id then Except.ok acc
      else Except.ok (acc.1 + 1, acc.2.removeEntity cls.id)
    else Except.ok acc) (0, m)

/-- The removal condition of `remove_small_elements` (lines 537-540): the
element's `Representation` is truthy and the kernel reports a volume that
is truthy (Python `vol and vol < min_volume`: a reported volume of `0.0`
or `None` keeps the element) and below the threshold. -/
def smallRemovable (m : Model) (min_volume : ℚ) (e : Entity) : Bool :=
  (match getAttr e "Representation" with
   | some v => v.pyTruthy
   | none => false) &&
  (match m.volumeOf e.id with
   | some vol => !(vol == 0) && decide (vol < min_volume)
   | none => false)

/-- `remove_small_elements` (optimizer.py lines 534-545).  The
`element.Representation` access is outside the `try`, so a missing
attribute raises out of the pass; the volume computation and removal are
inside it, so their failures skip the element. -/
def remove_small_elements (m : Model) (min_volume : ℚ) :
    Except String (Nat × Model) :=
  (m.byType "IfcElement").foldlM (fun (acc : Nat × Model) el =>
    match getAttr el "Representation" with
    | none => Except.error "AttributeError: Representation"
    | some rep =>
      if rep.pyTruthy then
        match acc.2.volumeOf el.id with
        | some vol =>
          if !(vol == 0) && decide (vol < min_volume) then
            if acc.2.removeFails el.id then Except.ok acc
            else Except.ok (acc.1 + 1, acc.2.removeEntity el.id)
          else Except.ok acc
        | none => Except.ok acc
      else Except.ok acc) (0, m)

/-- The first loop of `remove_orphaned_entities` (lines 548-553): every
entity whose concrete type is not `IfcProject`/`IfcOwnerHistory` and that
has no inverse references, collected against the unmutated model. -/
def orphanList (m : Model) : List Entity :=
  m.entities.filter (fun e =>
    !(e.typ == "IfcProject" || e.typ == "IfcOwnerHistory") &&
    (m.getInverse e.id).isEmpty)

/-- `remove_orphaned_entities` (optimizer.py lines 547-559): the removals
are guarded by `try/except`, but the returned count is the length of the
orphan list collected up front — a failed removal is still counted. -/
def remove_orphaned_entities (m : Model) : Except String (Nat × Model) :=
  let orphans := orphanList m
  let m' := orphans.foldl (fun (cur : Model) e =>
    if cur.removeFails e.id then cur else cur.removeEntity e.id) m
  .ok (orphans.length, m')

/-- `flatten_spatial_structure` (optimizer.py lines 618-627): remove every
`IfcSpatialStructureElement` whose inverse attribute `ContainsElements`
(the set of `IfcRelContainedInSpatialStructure` records pointing at it
through `RelatingStructure`) is empty; removal guarded by `try/except`. -/
def flatten_spatial_structure (m : Model) : Except String (Nat × Model) :=
  (m.byType "IfcSpatialStructureElement").foldlM (fun (acc : Nat × Model) sp =>
    let contains := acc.2.entities.filter (fun r =>
      r.isA "IfcRelContainedInSpatialStructure" &&
      decide (getAttr r "RelatingStructure" = some (.vref sp.id)))
    if contains.isEmpty then
      if acc.2.removeFails sp.id then Except.ok acc
      else Except.ok (acc.1 + 1, acc.2.removeEntity sp.id)
    else Except.ok acc) (0, m)

/-- Key-part contribution of one item of a shape representation
(optimizer.py lines 578-588): the item's concrete type, then, for an
`IfcExtrudedAreaSolid` with a `Depth` attribute, `str(Depth)`, and for an
`IfcFacetedBrep` whose `Outer` has `CfsFaces`, the face count.  `none`
marks an access that raises (broken reference, `len(None)`), which makes
the enclosing `try/except` skip the whole shape. -/
def itemKeyParts (m : Model) (itemId : Nat) : Option (List String) :=
  match m.findEntity itemId with
  | none => none
  | some it =>
    if it.typ == "IfcExtrudedAreaSolid" then
      match getAttr it "Depth" with
      | some d => some [it.typ, pyStr d]
      | none => some [it.typ]
    else if it.typ == "IfcFacetedBrep" then
      match getAttr it "Outer" with
      | some (.vref oid) =>
        match m.findEntity oid with
        | none => none
        | some sh =>
          match getAttr sh "CfsFaces" with
          | some (.vrefList fs) => some [it.typ, toString fs.length]
          | some (.vnumList fs) => some [it.typ, toString fs.length]
          | some _ => none
          | none => some [it.typ]
      | some _ => some [it.typ]
      | none => some [it.typ]
    else some [it.typ]

/-- The fingerprint key of a shape representation (optimizer.py lines
568-591): the concatenated key parts of its items.  `none` when the shape
is skipped: no `Items`/empty `Items` (line 573) or an exception while
computing the parts. -/
def shapeKey (m : Model) (s : Entity) : Option (List String) :=
  match getAttr s "Items" with
  | some (.vrefList items) =>
    if items.isEmpty then none
    else items.foldl (fun acc i =>
      match acc, itemKeyParts m i with
      | some ps, some qs => some (ps ++ qs)
      | _, _ => none) (some [])
  | _ => none

/-- Append `s` to the bucket of key `k`, creating the bucket at the end on
first sight — the insertion-order grouping a Python dict performs in the
first pass of `deduplicate_geometry` (lines 593-596). -/
def bucketAdd (acc : List (List String × List Entity)) (k : List String)
    (s : Entity) : List (List String × List Entity) :=
  match acc with
  | [] => [(k, [s])]
  | (k', ss) :: rest =>
    if k' == k then (k', ss ++ [s]) :: rest
    else (k', ss) :: bucketAdd rest k s

/-- The `geometry_map` built by the first pass of `deduplicate_geometry`:
shape representations grouped by fingerprint, in first-seen order. -/
def groupShapes (m : Model) : List (List String × List Entity) :=
  (m.byType "IfcShapeRepresentation").foldl (fun acc s =>
    match shapeKey m s with
    | none => acc
    | some k => bucketAdd acc k s) []

/-- `ifcopenshell.util.element.replace_attribute` over all attributes of
one referrer: every reference to `dup` becomes a reference to `orig`. -/
def repointAttrs (dup orig : Nat) (e : Entity) : Entity :=
  { e with attrs := e.attrs.map (fun a =>
      (a.1, match a.2 with
        | .vref i => .vref (if i == dup then orig else i)
        | .vrefList l => .vrefList (l.map (fun i => if i == dup then orig else i))
        | v => v)) }

/-- One duplicate merge (optimizer.py lines 607-614): re-point every
referrer of the duplicate to the original, then remove the duplicate.
The `try/except` catches a failing `model.remove` after the re-pointing
already happened, in which case the merge is not counted. -/
def mergeDuplicate (cur : Model) (orig dup : Entity) : Nat × Model :=
  let m1 := { cur with entities := cur.entities.map (repointAttrs dup.id orig.id) }
  if m1.removeFails dup.id then (0, m1)
  else (1, m1.removeEntity dup.id)

/-- `deduplicate_geometry` (optimizer.py lines 561-616). -/
def deduplicate_geometry (m : Model) : Except String (Nat × Model) :=
  .ok ((groupShapes m).foldl (fun (acc : Nat × Model) g =>
    match g.2 with
    | orig :: dup1 :: dups =>
      (dup1 :: dups).foldl (fun (a : Nat × Model) dup =>
        let r := mergeDuplicate a.2 orig dup
        (a.1 + r.1, r.2)) acc
    | _ => acc) (0, m))

/-- The merge relation the second pass of `deduplicate_geometry` acts on:
`mergeTarget m d = some o` when the shape with id `d` sits in the tail of
some fingerprint bucket whose head has id `o` — its referrers are then
re-pointed to `o` and it is removed. -/
def mergeTarget (m : Model) (d : Nat) : Option Nat :=
  (groupShapes m).findSome? (fun g =>
    match g.2 with
    | orig :: rest => if rest.any (fun s => s.id == d) then some orig.id else none
    | [] => none)

/-- Modelled from the spec (§4.3): the fingerprint of a shape record is
"an ordered tuple of: the record's constituent item type tags, and, for
each item, a small set of type-specific scalar features".  Used only to
state the deduplication claim in the spec's own terms. -/
def specFingerprint (m : Model) (s : Entity) : List String :=
  match getAttr s "Items" with
  | some (.vrefList items) =>
    items.foldl (fun acc i => acc ++ (itemKeyParts m i).getD []) []
  | _ => []

/-- Modelled from the spec (§4.3): the secondary exact-structure data of a
shape record, its item count and item-type sequence. -/
def specItemTypes (m : Model) (s : Entity) : Nat × List String :=
  match getAttr s "Items" with
  | some (.vrefList items) =>
    (items.length,
     items.foldl (fun acc i =>
       acc ++ (match m.findEntity i with | some it => [it.typ] | none => [])) [])
  | _ => (0, [])

/-- `min` of the coordinate list (guarded nonempty at the call sites,
matching Python `min(...)`). -/
def qmin : List ℚ → ℚ
  | [] => 0
  | h :: t => t.foldl min h

/-- `max` of the coordinate list. -/
def qmax : List ℚ → ℚ
  | [] => 0
  | h :: t => t.foldl max h

/-- The slice `verts[off::3]` used to split the flat vertex buffer into
x/y/z coordinate lists (optimizer.py lines 324-326). -/
def everyThird (l : List ℚ) (off : Nat) : List ℚ :=
  ((l.enum.filter (fun p => p.1 % 3 == off)).map Prod.snd)

/-- Model of `ifcopenshell.util.representation.get_context(model, "Model",
"Body", "MODEL_VIEW")` at the granularity the pass needs: the first
geometric representation context whose `ContextType` is `"Model"`. -/
def get_context (m : Model) : Option Entity :=
  (m.byType "IfcGeometricRepresentationContext").find? (fun e =>
    decide (getAttr e "ContextType" = some (.vstr "Model")))

/-- Model of the external `ifcopenshell.api` call
`geometry.assign_representation`: the freshly built body representation is
appended to the `Representations` of the product's definition shape. -/
def assignRepresentation (m : Model) (p : Entity) (bodyId : Nat) : Model :=
  match getAttr p "Representation" with
  | some (.vref pdsId) =>
    { m with entities := m.entities.map (fun e =>
        if e.id == pdsId then
          { e with attrs := e.attrs.map (fun a =>
              if a.1 == "Representations" then
                (a.1, match a.2 with
                      | .vrefList l => .vrefList (l ++ [bodyId])
                      | v => v)
              else a) }
        else e) }
  | _ => m

/-- The extrusion branch of `simplify_geometry` for walls/slabs/roofs
(optimizer.py lines 322-365): a rectangle profile of the bounding width
and depth, extruded by the bounding height, wrapped into a `SweptSolid`
body representation that is then assigned to the product. -/
def buildExtrusion (ctxId : Nat) (m : Model) (p : Entity)
    (xs ys zs : List ℚ) : Model :=
  let width := qmax xs - qmin xs
  let depth := qmax ys - qmin ys
  let height := qmax zs - qmin zs
  let (plc2, m) := m.createEntity "IfcAxis2Placement2D" [] []
  let (profId, m) := m.createEntity "IfcRectangleProfileDef" []
    [("ProfileType", .vstr "AREA"), ("ProfileName", .vnone),
     ("Position", .vref plc2), ("XDim", .vnum width), ("YDim", .vnum depth)]
  let (plc3, m) := m.createEntity "IfcAxis2Placement3D" [] []
  let (dirId, m) := m.createEntity "IfcDirection" []
    [("DirectionRatios", .vnumList [0, 0, 1])]
  let (extId, m) := m.createEntity "IfcExtrudedAreaSolid" []
    [("SweptArea", .vref profId), ("Position", .vref plc3),
     ("ExtrudedDirection", .vref dirId), ("Depth", .vnum height)]
  let (bodyId, m) := m.createEntity "IfcShapeRepresentation" []
    [("ContextOfItems", .vref ctxId),
     ("RepresentationIdentifier", .vstr "Body"),
     ("RepresentationType", .vstr "SweptSolid"),
     ("Items", .vrefList [extId])]
  assignRepresentation m p bodyId

/-- One `createIfcCartesianPoint` (a fresh point entity). -/
def createPoint (m : Model) (x y z : ℚ) : Nat × Model :=
  m.createEntity "IfcCartesianPoint" [] [("Coordinates", .vnumList [x, y, z])]

/-- `createIfcFace([createIfcFaceOuterBound(createIfcPolyLoop(pts), True)])`
for one quadrilateral face: creates the four points, the loop, the bound
and the face, returning the face id. -/
def createQuadFace (m : Model) (pts : List (ℚ × ℚ × ℚ)) : Nat × Model :=
  let (ptIds, m) := pts.foldl (fun (acc : List Nat × Model) c =>
    let (pid, m') := createPoint acc.2 c.1 c.2.1 c.2.2
    (acc.1 ++ [pid], m')) ([], m)
  let (loopId, m) := m.createEntity "IfcPolyLoop" [] [("Polygon", .vrefList ptIds)]
  let (boundId, m) := m.createEntity "IfcFaceOuterBound" []
    [("Bound", .vref loopId), ("Orientation", .vbool true)]
  m.createEntity "IfcFace" [] [("Bounds", .vrefList [boundId])]

/-- The x selector of the side-face loops (lines 409-420):
`min(x) if k == 0 or k == 3 else max(x)`. -/
def xsel (xs : List ℚ) (k : Nat) : ℚ :=
  if k == 0 || k == 3 then qmin xs else qmax xs

/-- The y selector of the side-face loops:
`min(y) if k == 0 or k == 1 else max(y)`. -/
def ysel (ys : List ℚ) (k : Nat) : ℚ :=
  if k == 0 || k == 1 then qmin ys else qmax ys

/-- The box branch of `simplify_geometry` for other products (optimizer.py
lines 370-444): bottom face, top face and four side faces over the
bounding box, closed into a shell, a faceted brep and a `Brep` body
representation assigned to the product. -/
def buildBox (ctxId : Nat) (m : Model) (p : Entity)
    (xs ys zs : List ℚ) : Model :=
  let (bottomId, m) := createQuadFace m
    [(qmin xs, qmin ys, qmin zs), (qmax xs, qmin ys, qmin zs),
     (qmax xs, qmax ys, qmin zs), (qmin xs, qmax ys, qmin zs)]
  let (topId, m) := createQuadFace m
    [(qmin xs, qmin ys, qmax zs), (qmax xs, qmin ys, qmax zs),
     (qmax xs, qmax ys, qmax zs), (qmin xs, qmax ys, qmax zs)]
  let (sideIds, m) := [0, 1, 2, 3].foldl (fun (acc : List Nat × Model) i =>
    let j := (i + 1) % 4
    let (fid, m') := createQuadFace acc.2
      [(xsel xs i, ysel ys i, qmin zs), (xsel xs j, ysel ys j, qmin zs),
       (xsel xs j, ysel ys j, qmax zs), (xsel xs i, ysel ys i, qmax zs)]
    (acc.1 ++ [fid], m')) ([], m)
  let (shellId, m) := m.createEntity "IfcClosedShell" []
    [("CfsFaces", .vrefList ([bottomId, topId] ++ sideIds))]
  let (brepId, m) := m.createEntity "IfcFacetedBrep" []
    [("Outer", .vref shellId)]
  let (bodyId, m) := m.createEntity "IfcShapeRepresentation" []
    [("ContextOfItems", .vref ctxId),
     ("RepresentationIdentifier", .vstr "Body"),
     ("RepresentationType", .vstr "Brep"),
     ("Items", .vrefList [brepId])]
  assignRepresentation m p bodyId

/-- Per-product body of `simplify_geometry` (optimizer.py lines 285-451).
The `product.Representation` access (line 286) happens before the `try`,
so a product without the attribute raises out of the pass; every failure
inside the `try` blocks makes the loop continue with the next product,
which in this embedding is the unchanged accumulator. -/
def simplifyProduct (ctxId : Nat) (acc : Nat × Model) (p : Entity) :
    Except String (Nat × Model) := do
  let rv ← match getAttr p "Representation" with
    | some v => Except.ok v
    | none => Except.error "AttributeError: Representation"
  if !rv.pyTruthy then Except.ok acc else
  Except.ok (
    match rv with
    | .vref pdsId =>
      (match acc.2.findEntity pdsId with
       | none => acc
       | some pds =>
         match getAttr pds "Representations" with
         | some (.vrefList repIds) =>
           (match repIds.mapM (fun i => acc.2.findEntity i) with
            | none => acc
            | some reps =>
              match reps.find? (fun r =>
                decide (getAttr r "RepresentationIdentifier" = some (.vstr "Body"))) with
              | none => acc
              | some rep =>
                if decide (getAttr rep "RepresentationType" = some (.vstr "MappedRepresentation"))
                then acc
                else
                  match acc.2.shapeOf p.id with
                  | none => acc
                  | some (verts, faces) =>
                    if verts.isEmpty || faces.isEmpty then acc
                    else
                      let xs := everyThird verts 0
                      let ys := everyThird verts 1
                      let zs := everyThird verts 2
                      if xs.isEmpty then acc
                      else if p.typ == "IfcWall" || p.typ == "IfcSlab" || p.typ == "IfcRoof"
                      then (acc.1 + 1, buildExtrusion ctxId acc.2 p xs ys zs)
                      else (acc.1 + 1, buildBox ctxId acc.2 p xs ys zs))
         | _ => acc)
    | _ => acc)

/-- `simplify_geometry` (optimizer.py lines 250-453).  The detail level
selects angle and distance tolerances (lines 266-282) that the rest of
the pass never reads; with no geometric representation context the pass
raises `RuntimeError` (line 264). -/
def simplify_geometry (m : Model) (detail_level : String) :
    Except String (Nat × Model) :=
  let context := match get_context m with
    | some c => some c
    | none => (m.byType "IfcGeometricRepresentationContext").head?
  match context with
  | none => Except.error "No IfcGeometricRepresentationContext found in the model."
  | some ctx =>
    let angle_tolerance : ℚ :=
      if detail_level.toLower == "low" then 30
      else if detail_level.toLower == "medium" then 20
      else if detail_level.toLower == "high" then 10
      else 20
    let distance_tolerance : ℚ :=
      if detail_level.toLower == "low" then 5/100
      else if detail_level.toLower == "medium" then 2/100
      else if detail_level.toLower == "high" then 1/100
      else 2/100
    let angle_tolerance_rad : ℚ := angle_tolerance * (314159/100000) / 180
    (m.byType "IfcProduct").foldlM (simplifyProduct ctx.id) (0, m)

/-- The options record handed to `optimize_ifc`: a Python dict, i.e. a
key/value sequence looked up by key (duplicate keys cannot occur in a
dict, so first-match lookup is faithful). -/
abbrev Options := List (String × AttrValue)

/-- `options[k]` / `options.get(k)`. -/
def Options.get? (o : Options) (k : String) : Option AttrValue :=
  match o with
  | [] => none
  | (k', v) :: rest => if k' == k then some v else Options.get? rest k

/-- The per-pass statistics map; a Python dict keeps insertion order, so
it is a list of (stat name, count) in execution order. -/
abbrev Stats := List (String × Nat)

/-- One row of the pass pipeline of `optimize_ifc` (lines 48-71): the
stats key, the enabling test on the options, and the pass body (which for
the threshold/detail passes also reads its parameter from the options). -/
structure PassSpec where
  stat : String
  enabled : Options → Bool
  run : Options → Model → Except String (Nat × Model)

/-- `if options.get('remove_unused_spaces', False)` (line 48). -/
def passSpaces : PassSpec :=
  ⟨"spaces", fun o => truthyOpt (o.get? "remove_unused_spaces"),
   fun _ m => remove_unused_spaces m⟩

/-- `if options.get('remove_metadata', False)` (line 50). -/
def passMetadata : PassSpec :=
  ⟨"metadata", fun o => truthyOpt (o.get? "remove_metadata"),
   fun _ m => remove_metadata m⟩

/-- `if options.get('remove_empty_attributes', False)` (line 52). -/
def passEmptyAttrs : PassSpec :=
  ⟨"empty_attrs", fun o => truthyOpt (o.get? "remove_empty_attributes"),
   fun _ m => remove_empty_attributes m⟩

/-- `if options.get('remove_unused_property_sets', False)` (line 54). -/
def passPsets : PassSpec :=
  ⟨"psets", fun o => truthyOpt (o.get? "remove_unused_property_sets"),
   fun _ m => remove_unused_property_sets m⟩

/-- `if options.get('remove_unused_materials', False)` (line 56). -/
def passMaterials : PassSpec :=
  ⟨"materials", fun o => truthyOpt (o.get? "remove_unused_materials"),
   fun _ m => remove_unused_materials m⟩

/-- `if options.get('remove_unused_classifications', False)` (line 58). -/
def passClassifications : PassSpec :=
  ⟨"classifications", fun o => truthyOpt (o.get? "remove_unused_classifications"),
   fun _ m => remove_unused_classifications m⟩

/-- `if 'remove_small_elements' in options and options['remove_small_elements']
is not None` (line 60): the pass is enabled by presence of the key with
any non-`None` value — including a boolean `False`, which
`float(...)` turns into the threshold `0.0`. -/
def passSmall : PassSpec :=
  ⟨"small_elements",
   fun o => match o.get? "remove_small_elements" with
     | none => false
     | some .vnone => false
     | some _ => true,
   fun o m => do
     let v := (o.get? "remove_small_elements").getD .vnone
     let min_vol ← pyFloat v
     remove_small_elements m min_vol⟩

/-- `if options.get('remove_orphaned_entities', False)` (line 63). -/
def passOrphans : PassSpec :=
  ⟨"orphans", fun o => truthyOpt (o.get? "remove_orphaned_entities"),
   fun _ m => remove_orphaned_entities m⟩

/-- `if options.get('deduplicate_geometry', False)` (line 65). -/
def passDedup : PassSpec :=
  ⟨"duplicate_geo", fun o => truthyOpt (o.get? "deduplicate_geometry"),
   fun _ m => deduplicate_geometry m⟩

/-- `if options.get('flatten_spatial_structure', False)` (line 67). -/
def passSpatial : PassSpec :=
  ⟨"spatial", fun o => truthyOpt (o.get? "flatten_spatial_structure"),
   fun _ m => flatten_spatial_structure m⟩

/-- `if options.get('simplify_geometry') and options.get('simplify_geometry')
!= 'none'` (line 69): any truthy value other than the string `"none"`
enables the pass; a non-string detail level then raises inside the pass
at `detail_level.lower()` (line 267). -/
def passSimplify : PassSpec :=
  ⟨"simplified_geo",
   fun o => match o.get? "simplify_geometry" with
     | none => false
     | some v => v.pyTruthy && (match v with | .vstr s => !(s == "none") | _ => true),
   fun o m => match o.get? "simplify_geometry" with
     | some (.vstr s) => simplify_geometry m s
     | _ => Except.error "AttributeError: lower"⟩

/-- The pass pipeline in the declaration order of optimizer.py lines
48-71. -/
def passTable : List PassSpec :=
  [passSpaces, passMetadata, passEmptyAttrs, passPsets, passMaterials,
   passClassifications, passSmall, passOrphans, passDedup, passSpatial,
   passSimplify]

/-- The sequential `if ... : stats[k] = pass(model)` chain: run each
enabled pass in table order, appending its count to the statistics; an
exception from a pass aborts the chain (there is no per-pass handler in
`optimize_ifc`). -/
def runPassList : List PassSpec → Options → Stats × Model →
    Except String (Stats × Model)
  | [], _, acc => .ok acc
  | p :: rest, opts, acc =>
    if p.enabled opts then
      match p.run opts acc.2 with
      | .error e => .error e
      | .ok (n, m') => runPassList rest opts (acc.1 ++ [(p.stat, n)], m')
    else runPassList rest opts acc

/-- Lines 46-71 of `optimize_ifc`: the whole pipeline from an empty stats
map. -/
def runPasses (opts : Options) (m : Model) : Except String (Stats × Model) :=
  runPassList passTable opts ([], m)

/-- The default options substituted when `options is None`
(optimizer.py lines 28-41). -/
def defaultOptions : Options :=
  [("remove_unused_spaces", .vbool true),
   ("remove_metadata", .vbool true),
   ("remove_empty_attributes", .vbool true),
   ("remove_unused_property_sets", .vbool true),
   ("remove_unused_materials", .vbool true),
   ("remove_unused_classifications", .vbool true),
   ("remove_small_elements", .vnum (1/1000)),
   ("remove_orphaned_entities", .vbool true),
   ("deduplicate_geometry", .vbool true),
   ("flatten_spatial_structure", .vbool true),
   ("simplify_geometry", .vstr "medium")]

/-- `optimize_ifc` (optimizer.py lines 12-104) restricted to the graph
core: the schema pre-pass, file load/save, validation and the optional
mesh export are external collaborators (§6 of the spec) and are outside
this embedding.  The pass chain runs inside one `try`; any exception is
re-raised as `RuntimeError("Optimization failed: ...")` (lines 102-104),
so a throwing pass fails the whole call and no statistics are
returned. -/
def optimize_ifc (m : Model) (options : Option Options) :
    Except String Stats :=
  let opts := options.getD defaultOptions
  match runPasses opts m with
  | .ok (stats, _) => .ok stats
  | .error e => .error ("Optimization failed: " ++ e)

/-- A model with no entities (oracles all trivial). -/
def emptyModel : Model :=
  ⟨[], 1, fun _ => false, fun _ => none, fun _ => none⟩

/-- Options enabling only geometry simplification. -/
def optsSimplifyOnly : Options := [("simplify_geometry", .vstr "medium")]

/-- Options carrying a boolean `False` for the small-volume pass. -/
def optsSmallFalse : Options := [("remove_small_elements", .vbool false)]

/-- Options enabling only metadata trimming. -/
def optsMetaOnly : Options := [("remove_metadata", .vbool true)]

/-- Options enabling only empty-attribute clearing. -/
def optsEmptyOnly : Options := [("remove_empty_attributes", .vbool true)]

/-- A wall element (id 1) with a representation whose reported volume is
exactly `0`. -/
def mVolZero : Model :=
  ⟨[⟨1, "IfcWall", ["IfcElement", "IfcProduct"], [("Representation", .vref 50)]⟩],
   100, fun _ => false, fun i => if i == 1 then some 0 else none, fun _ => none⟩

/-- Two elements with representations, reporting volumes `0.0005` (id 1)
and `0.01` (id 2) — the scenario of spec §8. -/
def mTwoVolumes : Model :=
  ⟨[⟨1, "IfcWall", ["IfcElement", "IfcProduct"], [("Representation", .vref 50)]⟩,
    ⟨2, "IfcBeam", ["IfcElement", "IfcProduct"], [("Representation", .vref 51)]⟩],
   100, fun _ => false,
   fun i => if i == 1 then some (5/10000) else if i == 2 then some (1/100) else none,
   fun _ => none⟩

/-- Two shape representations (ids 1 and 2) whose `Items` lists are both
empty: their fingerprints and item-type sequences coincide trivially. -/
def shapeEmptyOne : Entity := ⟨1, "IfcShapeRepresentation", [], [("Items", .vrefList [])]⟩

/-- The second empty shape representation. -/
def shapeEmptyTwo : Entity := ⟨2, "IfcShapeRepresentation", [], [("Items", .vrefList [])]⟩

/-- The model holding the two empty shape representations. -/
def mEmptyShapes : Model :=
  ⟨[shapeEmptyOne, shapeEmptyTwo], 100, fun _ => false, fun _ => none, fun _ => none⟩

/-- Two shape representations (ids 1, 2) with one styled item each, of the
same item type, so their fingerprints agree; a third entity (id 5)
references shape 2. -/
def mDupShapes : Model :=
  ⟨[⟨1, "IfcShapeRepresentation", [], [("Items", .vrefList [3])]⟩,
    ⟨2, "IfcShapeRepresentation", [], [("Items", .vrefList [4])]⟩,
    ⟨3, "IfcStyledItem", [], []⟩,
    ⟨4, "IfcStyledItem", [], []⟩,
    ⟨5, "IfcProductDefinitionShape", [], [("Representations", .vrefList [2])]⟩],
   100, fun _ => false, fun _ => none, fun _ => none⟩

/-- A wall (id 1) whose `Description` attribute is already `None`: the
empty-attribute pass "clears" (and counts) it on every run. -/
def mNoneAttr : Model :=
  ⟨[⟨1, "IfcWall", ["IfcElement", "IfcProduct"], [("Description", .vnone)]⟩],
   100, fun _ => false, fun _ => none, fun _ => none⟩

/-- A single orphaned beam (id 1) whose removal raises: `removeFails` is
true for it, standing for a `model.remove` call that throws. -/
def mOrphanFails : Model :=
  ⟨[⟨1, "IfcBeam", ["IfcElement", "IfcProduct"], []⟩],
   100, fun i => i == 1, fun _ => none, fun _ => none⟩

/-- Three ownership histories (ids 1-3) and a project (id 4). -/
def mThreeHistories : Model :=
  ⟨[⟨1, "IfcOwnerHistory", [], []⟩, ⟨2, "IfcOwnerHistory", [], []⟩,
    ⟨3, "IfcOwnerHistory", [], []⟩, ⟨4, "IfcProject", [], [("OwnerHistory", .vref 1)]⟩],
   100, fun _ => false, fun _ => none, fun _ => none⟩

/-- Three spaces: id 1 is referenced by a non-exempted aggregation record
(id 4), id 2 only by an exempted placement record (id 5), id 3 by nothing. -/
def mSpaces : Model :=
  ⟨[⟨1, "IfcSpace", ["IfcSpatialStructureElement", "IfcProduct"], []⟩,
    ⟨2, "IfcSpace", ["IfcSpatialStructureElement", "IfcProduct"], []⟩,
    ⟨3, "IfcSpace", ["IfcSpatialStructureElement", "IfcProduct"], []⟩,
    ⟨4, "IfcRelAggregates", [], [("RelatedObjects", .vrefList [1])]⟩,
    ⟨5, "IfcLocalPlacement", [], [("PlacementRelTo", .vref 2)]⟩],
   100, fun _ => false, fun _ => none, fun _ => none⟩

/-- Two option records with the same bindings supplied in opposite order. -/
def optsOrderOne : Options :=
  [("remove_metadata", .vbool true), ("remove_unused_spaces", .vbool false)]

/-- The permutation of `optsOrderOne`. -/
def optsOrderTwo : Options :=
  [("remove_unused_spaces", .vbool false), ("remove_metadata", .vbool true)]

/-- The model `mThreeHistories` after metadata trimming: only the first
ownership history and the project remain. -/
def mThreeAfterMeta : Model :=
  ⟨[⟨1, "IfcOwnerHistory", [], []⟩, ⟨4, "IfcProject", [], [("OwnerHistory", .vref 1)]⟩],
   100, fun _ => false, fun _ => none, fun _ => none⟩

/-- The net effect of removing, by id, every entity of `l` from `m`; used
to state what the removal loops of the passes compute. -/
def removeIds (m : Model) (l : List Entity) : Model :=
  { m with entities := m.entities.filter (fun e => !(l.any (fun h => h.id == e.id))) }

/-- Bucket lookup in the grouping dictionary built by `bucketAdd`. -/
def bucketOf (acc : List (List String × List Entity)) (k : List String) :
    List Entity :=
  ((acc.find? (fun g => g.1 == k)).map Prod.snd).getD []


theorem removeEntity_removeFails (m : Model) (i : Nat) :
    (m.removeEntity i).removeFails = m.removeFails := rfl

theorem removeEntity_volumeOf (m : Model) (i : Nat) :
    (m.removeEntity i).volumeOf = m.volumeOf := rfl

theorem removeIds_nil (m : Model) : removeIds m [] = m := by
  simp [removeIds]

theorem removeIds_cons (m : Model) (s : Entity) (t : List Entity) :
    removeIds (m.removeEntity s.id) t = removeIds m (s :: t) := by
  simp only [removeIds, Model.removeEntity, List.filter_filter]
  congr 1
  apply List.filter_congr
  intro a _
  by_cases hsa : a.id = s.id
  · simp [hsa, List.any_cons]
  · have h2 : ¬ s.id = a.id := fun h => hsa h.symm
    have e1 : (a.id == s.id) = false := beq_eq_false_iff_ne.mpr hsa
    have e2 : (s.id == a.id) = false := beq_eq_false_iff_ne.mpr h2
    simp [e1, e2, List.any_cons]

theorem exceptBind_ok {α β : Type} (a : α) (f : α → Except String β) :
    (Except.ok a >>= f) = f a := rfl

theorem exceptPure_eq {α : Type} (a : α) : (pure a : Except String α) = Except.ok a := rfl

/-- The unguarded removal loop (`for x in l: model.remove(x)`) succeeds on
a model whose `remove` never raises and removes exactly the ids of `l`. -/
theorem foldRemoveM_ok (l : List Entity) (m : Model)
    (hf : ∀ i, m.removeFails i = false) :
    l.foldlM (fun (cur : Model) s =>
      if cur.removeFails s.id then Except.error "remove failed"
      else Except.ok (cur.removeEntity s.id)) m = .ok (removeIds m l) := by
  induction l generalizing m with
  | nil => rw [removeIds_nil]; rfl
  | cons s t ih =>
    rw [List.foldlM_cons]
    have hstep : (if m.removeFails s.id then Except.error "remove failed"
        else Except.ok (m.removeEntity s.id)) = Except.ok (m.removeEntity s.id) := by
      rw [hf]; rfl
    rw [hstep, exceptBind_ok, ih (m.removeEntity s.id) (fun i => hf i), removeIds_cons]

/-- The counting unguarded removal loop of `remove_metadata`. -/
theorem foldRemoveCountM_ok (l : List Entity) (k : Nat) (m : Model)
    (hf : ∀ i, m.removeFails i = false) :
    l.foldlM (fun (acc : Nat × Model) h =>
      if acc.2.removeFails h.id then Except.error "remove failed"
      else Except.ok (acc.1 + 1, acc.2.removeEntity h.id)) (k, m) =
      .ok (k + l.length, removeIds m l) := by
  induction l generalizing k m with
  | nil => rw [removeIds_nil]; show Except.ok (k, m) = _; simp
  | cons s t ih =>
    rw [List.foldlM_cons]
    have hstep : (if (k, m).2.removeFails s.id then Except.error "remove failed"
        else Except.ok ((k, m).1 + 1, (k, m).2.removeEntity s.id)) =
        Except.ok (k + 1, m.removeEntity s.id) := by
      rw [show (k, m).2 = m from rfl, hf]; rfl
    rw [hstep, exceptBind_ok, ih (k + 1) (m.removeEntity s.id) (fun i => hf i), removeIds_cons]
    rw [List.length_cons]
    congr 2
    omega

theorem byType_removeIds (m : Model) (l : List Entity) (t : String) :
    (removeIds m l).byType t =
      (m.byType t).filter (fun e => !(l.any (fun h => h.id == e.id))) := by
  show List.filter _ (List.filter _ _) = List.filter _ (List.filter _ _)
  simp only [List.filter_filter]
  exact List.filter_congr (fun a _ => Bool.and_comm _ _)

theorem byType_ids_nodup (m : Model) (t : String)
    (hnd : (m.entities.map Entity.id).Nodup) :
    ((m.byType t).map Entity.id).Nodup :=
  List.Nodup.sublist (List.Sublist.map Entity.id (List.filter_sublist _)) hnd

/-- Membership in the result of removing the ids of the entities of type
`t` satisfying `p`: with distinct ids, an entity survives exactly when it
is not such an entity. -/
theorem mem_removeIds_iff (m : Model) (t : String) (p : Entity → Bool)
    (hnd : (m.entities.map Entity.id).Nodup) (e : Entity) (he : e ∈ m.entities) :
    (e ∈ (removeIds m ((m.byType t).filter p)).entities) ↔
      ¬(e.isA t = true ∧ p e = true) := by
  have hmem_iff : e ∈ (removeIds m ((m.byType t).filter p)).entities ↔
      ∀ s ∈ (m.byType t).filter p, ¬((s.id == e.id) = true) := by
    simp [removeIds, List.mem_filter, he, List.any_eq_false]
  rw [hmem_iff]
  constructor
  · intro hall hc
    refine hall e ?_ (by simp)
    rw [List.mem_filter]
    exact ⟨by rw [Model.byType, List.mem_filter]; exact ⟨he, hc.1⟩, hc.2⟩
  · intro hnc s hs hbeq
    have hid : s.id = e.id := by simpa using hbeq
    have hsent : s ∈ m.entities := by
      have := (List.mem_filter.mp hs).1
      rw [Model.byType, List.mem_filter] at this
      exact this.1
    have hse : s = e := List.inj_on_of_nodup_map hnd hsent he hid
    subst hse
    have := List.mem_filter.mp hs
    rw [Model.byType, List.mem_filter] at this
    exact hnc ⟨this.1.2, this.2⟩

/-- Closed form of `remove_unused_spaces` when `model.remove` never
raises. -/
theorem remove_unused_spaces_eq (m : Model) (hf : ∀ i, m.removeFails i = false) :
    remove_unused_spaces m =
      .ok (((m.byType "IfcSpace").filter (fun s => spaceUnused m s)).length,
        removeIds m ((m.byType "IfcSpace").filter (fun s => spaceUnused m s))) := by
  have hfold := foldRemoveM_ok ((m.byType "IfcSpace").filter (fun s => spaceUnused m s)) m hf
  simp only [remove_unused_spaces]
  rw [hfold]
  rfl

/-- Closed form of `remove_metadata` when `model.remove` never raises. -/
theorem remove_metadata_eq (m : Model) (hf : ∀ i, m.removeFails i = false) :
    remove_metadata m =
      .ok ((m.byType "IfcOwnerHistory").length - 1,
        removeIds m ((m.byType "IfcOwnerHistory").drop 1)) := by
  unfold remove_metadata
  cases hh : m.byType "IfcOwnerHistory" with
  | nil => simp [removeIds_nil]
  | cons h rest =>
    have hfold := foldRemoveCountM_ok rest 0 m hf
    simpa using hfold

theorem filter_not_any_drop_one (L : List Entity)
    (hnd : (L.map Entity.id).Nodup) :
    L.filter (fun e => !((L.drop 1).any (fun h => h.id == e.id))) = L.take 1 := by
  cases L with
  | nil => rfl
  | cons h0 hs =>
    have hnd' : h0.id ∉ hs.map Entity.id ∧ (hs.map Entity.id).Nodup := by
      rw [List.map_cons, List.nodup_cons] at hnd
      exact hnd
    rw [List.drop_one, List.tail_cons, List.take_succ_cons, List.take_zero,
      List.filter_cons]
    have hh0 : (hs.any (fun h => h.id == h0.id)) = false := by
      rw [List.any_eq_false]
      intro x hx hbeq
      have hxid : x.id = h0.id := by simpa using hbeq
      exact hnd'.1 (hxid ▸ List.mem_map_of_mem Entity.id hx)
    rw [hh0]
    have hrest : hs.filter (fun e => !(hs.any (fun h => h.id == e.id))) = [] := by
      rw [List.filter_eq_nil_iff]
      intro a ha hcond
      have : hs.any (fun h => h.id == a.id) = true :=
        List.any_eq_true.mpr ⟨a, ha, by simp⟩
      rw [this] at hcond
      simp at hcond
    simpa using hrest

/-- Reduce an `if` over a boolean condition known to be true. -/
theorem if_bool_true {α : Sort _} {c : Bool} (h : c = true) (a b : α) :
    (if c = true then a else b) = a := if_pos h

/-- Reduce an `if` over a boolean condition known to be false. -/
theorem if_bool_false {α : Sort _} {c : Bool} (h : c = false) (a b : α) :
    (if c = true then a else b) = b := if_neg (by simp [h])

/-- The loop of `remove_small_elements` on a model whose `remove` never
raises: it removes exactly the elements satisfying `smallRemovable` and
counts them. -/
theorem small_fold (minv : ℚ) (l : List Entity) (k : Nat) (m cur : Model)
    (hv : cur.volumeOf = m.volumeOf) (hr : cur.removeFails = m.removeFails)
    (hf : ∀ i, m.removeFails i = false)
    (hrep : ∀ e ∈ l, "Representation" ∈ e.attrs.map Prod.fst) :
    l.foldlM (fun (acc : Nat × Model) el =>
      match getAttr el "Representation" with
      | none => Except.error "AttributeError: Representation"
      | some rep =>
        if rep.pyTruthy then
          match acc.2.volumeOf el.id with
          | some vol =>
            if !(vol == 0) && decide (vol < minv) then
              if acc.2.removeFails el.id then Except.ok acc
              else Except.ok (acc.1 + 1, acc.2.removeEntity el.id)
            else Except.ok acc
          | none => Except.ok acc
        else Except.ok acc) (k, cur) =
      .ok (k + (l.filter (fun e => smallRemovable m minv e)).length,
        removeIds cur (l.filter (fun e => smallRemovable m minv e))) := by
  induction l generalizing k cur with
  | nil => simp [removeIds_nil]; rfl
  | cons el t ih =>
    obtain ⟨v, hgv⟩ : ∃ v, getAttr el "Representation" = some v := by
      have hmem := hrep el (List.mem_cons_self el t)
      rw [List.mem_map] at hmem
      obtain ⟨a, ha, hfst⟩ := hmem
      have hsome : (el.attrs.find? (fun a => a.1 == "Representation")).isSome :=
        List.find?_isSome.mpr ⟨a, ha, by simp [hfst]⟩
      obtain ⟨p, hp⟩ := Option.isSome_iff_exists.mp hsome
      exact ⟨p.2, by rw [getAttr, hp]; rfl⟩
    have htrep : ∀ e ∈ t, "Representation" ∈ e.attrs.map Prod.fst :=
      fun e he => hrep e (List.mem_cons_of_mem el he)
    rw [List.foldlM_cons]
    simp only [hgv]
    cases hb : v.pyTruthy with
    | false =>
      have hsm : smallRemovable m minv el = false := by
        rw [smallRemovable, hgv]
        simp [hb]
      rw [if_neg Bool.false_ne_true, exceptBind_ok,
        List.filter_cons_of_neg (by rw [hsm]; simp)]
      exact ih k cur hv hr htrep
    | true =>
      rw [if_pos rfl]
      cases hvol : m.volumeOf el.id with
      | none =>
        have hsm : smallRemovable m minv el = false := by
          rw [smallRemovable, hgv]
          simp [hvol]
        simp only [hv, hvol]
        rw [exceptBind_ok, List.filter_cons_of_neg (by rw [hsm]; simp)]
        exact ih k cur hv hr htrep
      | some vol =>
        simp only [hv, hvol]
        cases hc : (!(vol == 0) && decide (vol < minv)) with
        | false =>
          have hsm : smallRemovable m minv el = false := by
            rw [smallRemovable, hgv]
            simp [hvol, hb, hc]
          rw [if_neg Bool.false_ne_true, exceptBind_ok,
            List.filter_cons_of_neg (by rw [hsm]; simp)]
          exact ih k cur hv hr htrep
        | true =>
          have hsm : smallRemovable m minv el = true := by
            rw [smallRemovable, hgv]
            simp [hvol, hb, hc]
          have hrf : cur.removeFails el.id = false := by
            rw [hr]; exact hf el.id
          rw [if_pos rfl, hrf, if_neg Bool.false_ne_true, exceptBind_ok]
          rw [ih (k + 1) (cur.removeEntity el.id)
            (by rw [removeEntity_volumeOf, hv]) (by rw [removeEntity_removeFails, hr]) htrep]
          rw [removeIds_cons, List.filter_cons_of_pos (by rw [hsm])]
          rw [List.length_cons]
          congr 2
          omega

/-- Closed form of `remove_small_elements` when `model.remove` never
raises and every element record carries a `Representation` attribute. -/
theorem remove_small_elements_eq (m : Model) (minv : ℚ)
    (hf : ∀ i, m.removeFails i = false)
    (hrep : ∀ e ∈ m.byType "IfcElement", "Representation" ∈ e.attrs.map Prod.fst) :
    remove_small_elements m minv =
      .ok (((m.byType "IfcElement").filter (fun e => smallRemovable m minv e)).length,
        removeIds m ((m.byType "IfcElement").filter (fun e => smallRemovable m minv e))) := by
  rw [remove_small_elements, small_fold minv _ 0 m m rfl rfl hf hrep]
  rw [Nat.zero_add]

/-- The stats keys a successful pipeline run produces are exactly the
stat names of the enabled passes, in table order. -/
theorem runPassList_keys (l : List PassSpec) (opts : Options) :
    ∀ (acc : Stats × Model) (stats : Stats) (m1 : Model),
    runPassList l opts acc = .ok (stats, m1) →
    stats.map Prod.fst =
      acc.1.map Prod.fst ++ (l.filter (fun p => p.enabled opts)).map PassSpec.stat := by
  induction l with
  | nil =>
    intro acc stats m1 h
    rw [runPassList] at h
    cases h
    simp
  | cons p t ih =>
    intro acc stats m1 h
    rw [runPassList] at h
    cases hp : p.enabled opts with
    | false =>
      rw [hp, if_neg Bool.false_ne_true] at h
      rw [List.filter_cons_of_neg (by rw [hp]; simp)]
      exact ih acc stats m1 h
    | true =>
      rw [hp, if_pos rfl] at h
      rw [List.filter_cons_of_pos (by rw [hp])]
      cases hrun : p.run opts acc.2 with
      | error e => rw [hrun] at h; cases h
      | ok r =>
        obtain ⟨n, m2⟩ := r
        rw [hrun] at h
        have := ih _ _ _ h
        rw [this]
        simp

/-- Two option records with the same lookups drive every pass of the
table identically. -/
theorem passTable_agree (o1 o2 : Options)
    (hopt : ∀ k, Options.get? o1 k = Options.get? o2 k) :
    ∀ p ∈ passTable, p.enabled o1 = p.enabled o2 ∧ p.run o1 = p.run o2 := by
  intro p hp
  rw [passTable] at hp
  simp only [List.mem_cons, List.not_mem_nil, or_false] at hp
  rcases hp with rfl | rfl | rfl | rfl | rfl | rfl | rfl | rfl | rfl | rfl | rfl <;>
    exact ⟨by simp only [passSpaces, passMetadata, passEmptyAttrs, passPsets, passMaterials,
        passClassifications, passSmall, passOrphans, passDedup, passSpatial,
        passSimplify, hopt],
      by simp only [passSpaces, passMetadata, passEmptyAttrs, passPsets, passMaterials,
        passClassifications, passSmall, passOrphans, passDedup, passSpatial,
        passSimplify, hopt]⟩

/-- The pass chain only looks at the options through lookups. -/
theorem runPassList_congr (l : List PassSpec) (o1 o2 : Options)
    (hag : ∀ p ∈ l, p.enabled o1 = p.enabled o2 ∧ p.run o1 = p.run o2) :
    ∀ acc, runPassList l o1 acc = runPassList l o2 acc := by
  induction l with
  | nil => intro acc; rfl
  | cons p t ih =>
    intro acc
    have hp := hag p (List.mem_cons_self p t)
    have ht : ∀ q ∈ t, q.enabled o1 = q.enabled o2 ∧ q.run o1 = q.run o2 :=
      fun q hq => hag q (List.mem_cons_of_mem p hq)
    rw [runPassList, runPassList, hp.1, hp.2]
    cases he : p.enabled o2 with
    | false =>
      rw [if_neg Bool.false_ne_true, if_neg Bool.false_ne_true]
      exact ih ht acc
    | true =>
      rw [if_pos rfl, if_pos rfl]
      cases p.run o2 acc.2 with
      | error e => rfl
      | ok r =>
        obtain ⟨n, m2⟩ := r
        exact ih ht _

/-- With only `remove_metadata` enabled, the pipeline is exactly the
metadata pass wrapped into the one-entry statistics map. -/
theorem runPasses_metaOnly (m : Model) :
    runPasses optsMetaOnly m =
      match remove_metadata m with
      | .error e => .error e
      | .ok (n, m') => .ok ([("metadata", n)], m') := by
  have h1 : passSpaces.enabled optsMetaOnly = false := rfl
  have h2 : passMetadata.enabled optsMetaOnly = true := rfl
  have h3 : passEmptyAttrs.enabled optsMetaOnly = false := rfl
  have h4 : passPsets.enabled optsMetaOnly = false := rfl
  have h5 : passMaterials.enabled optsMetaOnly = false := rfl
  have h6 : passClassifications.enabled optsMetaOnly = false := rfl
  have h7 : passSmall.enabled optsMetaOnly = false := rfl
  have h8 : passOrphans.enabled optsMetaOnly = false := rfl
  have h9 : passDedup.enabled optsMetaOnly = false := rfl
  have h10 : passSpatial.enabled optsMetaOnly = false := rfl
  have h11 : passSimplify.enabled optsMetaOnly = false := rfl
  rw [runPasses, passTable]
  rw [runPassList, h1, if_neg Bool.false_ne_true]
  rw [runPassList, h2, if_pos rfl]
  have hrm : passMetadata.run optsMetaOnly (([] : Stats), m).2 = remove_metadata m := rfl
  rw [hrm]
  cases hr : remove_metadata m with
  | error e => rfl
  | ok r =>
    obtain ⟨n, m2⟩ := r
    show runPassList _ _ (([] : Stats) ++ [("metadata", n)], m2) = _
    rw [runPassList, h3, if_neg Bool.false_ne_true]
    rw [runPassList, h4, if_neg Bool.false_ne_true]
    rw [runPassList, h5, if_neg Bool.false_ne_true]
    rw [runPassList, h6, if_neg Bool.false_ne_true]
    rw [runPassList, h7, if_neg Bool.false_ne_true]
    rw [runPassList, h8, if_neg Bool.false_ne_true]
    rw [runPassList, h9, if_neg Bool.false_ne_true]
    rw [runPassList, h10, if_neg Bool.false_ne_true]
    rw [runPassList, h11, if_neg Bool.false_ne_true]
    rw [runPassList]
    rfl

theorem bucketAdd_bucket (acc : List (List String × List Entity))
    (ka k : List String) (s : Entity) :
    bucketOf (bucketAdd acc ka s) k =
      bucketOf acc k ++ (if ka == k then [s] else []) := by
  induction acc with
  | nil =>
    by_cases h : ka = k
    · subst h
      simp [bucketAdd, bucketOf, List.find?_cons]
    · have hb : (ka == k) = false := beq_eq_false_iff_ne.mpr h
      simp [bucketAdd, bucketOf, List.find?_cons, hb]
  | cons g t ih =>
    obtain ⟨gk, gss⟩ := g
    rw [bucketAdd]
    by_cases hga : gk = ka
    · subst hga
      rw [if_pos (by simp)]
      by_cases hgk : gk = k
      · subst hgk
        simp [bucketOf, List.find?_cons]
      · have hb : (gk == k) = false := beq_eq_false_iff_ne.mpr hgk
        simp [bucketOf, List.find?_cons, hb]
    · rw [if_neg (by simpa using hga)]
      by_cases hgk : gk = k
      · subst hgk
        have hb : (ka == gk) = false := beq_eq_false_iff_ne.mpr (fun h => hga h.symm)
        simp [bucketOf, List.find?_cons, hb]
      · have hb : (gk == k) = false := beq_eq_false_iff_ne.mpr hgk
        simp only [bucketOf, List.find?_cons, hb]
        exact ih

theorem bucketAdd_keys_mem (acc : List (List String × List Entity))
    (ka : List String) (s : Entity) :
    ∀ k, k ∈ (bucketAdd acc ka s).map Prod.fst →
      k ∈ acc.map Prod.fst ∨ k = ka := by
  induction acc with
  | nil =>
    intro k hk
    simp [bucketAdd] at hk
    exact Or.inr hk
  | cons g t ih =>
    obtain ⟨gk, gss⟩ := g
    intro k hk
    rw [bucketAdd] at hk
    by_cases hga : gk = ka
    · rw [if_pos (by simp [hga])] at hk
      simp only [List.map_cons, List.mem_cons] at hk ⊢
      exact Or.inl hk
    · rw [if_neg (by simpa using hga)] at hk
      simp only [List.map_cons, List.mem_cons] at hk ⊢
      rcases hk with rfl | hk
      · exact Or.inl (Or.inl rfl)
      · rcases ih k hk with h | h
        · exact Or.inl (Or.inr h)
        · exact Or.inr h

theorem bucketAdd_keys_nodup (acc : List (List String × List Entity))
    (ka : List String) (s : Entity)
    (h : (acc.map Prod.fst).Nodup) :
    ((bucketAdd acc ka s).map Prod.fst).Nodup := by
  induction acc with
  | nil => simp [bucketAdd]
  | cons g t ih =>
    obtain ⟨gk, gss⟩ := g
    rw [List.map_cons, List.nodup_cons] at h
    rw [bucketAdd]
    by_cases hga : gk = ka
    · rw [if_pos (by simp [hga])]
      rw [List.map_cons, List.nodup_cons]
      exact h
    · rw [if_neg (by simpa using hga)]
      rw [List.map_cons, List.nodup_cons]
      refine ⟨fun hmem => ?_, ih h.2⟩
      rcases bucketAdd_keys_mem t ka s gk hmem with hin | heq
      · exact h.1 hin
      · exact hga heq

theorem bucketAdd_nonempty (acc : List (List String × List Entity))
    (ka : List String) (s : Entity)
    (h : ∀ g ∈ acc, g.2 ≠ []) :
    ∀ g ∈ bucketAdd acc ka s, g.2 ≠ [] := by
  induction acc with
  | nil =>
    intro g hg
    simp [bucketAdd] at hg
    subst hg
    simp
  | cons a t ih =>
    obtain ⟨gk, gss⟩ := a
    intro g hg
    rw [bucketAdd] at hg
    by_cases hga : gk = ka
    · rw [if_pos (by simp [hga])] at hg
      rcases List.mem_cons.mp hg with rfl | hgt
      · simp
      · exact h g (List.mem_cons_of_mem _ hgt)
    · rw [if_neg (by simpa using hga)] at hg
      rcases List.mem_cons.mp hg with rfl | hgt
      · exact h _ (List.mem_cons_self _ _)
      · exact ih (fun g' hg' => h g' (List.mem_cons_of_mem _ hg')) g hgt

theorem groupFold_bucket (m : Model) (l : List Entity) :
    ∀ (acc : List (List String × List Entity)) (k : List String),
    bucketOf (l.foldl (fun acc s =>
        match shapeKey m s with
        | none => acc
        | some k' => bucketAdd acc k' s) acc) k =
      bucketOf acc k ++ l.filter (fun s => shapeKey m s == some k) := by
  induction l with
  | nil => intro acc k; simp
  | cons s t ih =>
    intro acc k
    rw [List.foldl_cons]
    cases hk : shapeKey m s with
    | none =>
      rw [ih acc k, List.filter_cons_of_neg (by simp [hk])]
    | some k' =>
      rw [ih (bucketAdd acc k' s) k, bucketAdd_bucket acc k' k s]
      by_cases hkk : k' = k
      · subst hkk
        rw [if_pos (by simp), List.filter_cons_of_pos (by simp [hk])]
        simp
      · rw [if_neg (by simpa using hkk),
          List.filter_cons_of_neg (by simp [hk, hkk])]
        simp

theorem groupFold_keys_nodup (m : Model) (l : List Entity) :
    ∀ (acc : List (List String × List Entity)),
    (acc.map Prod.fst).Nodup →
    ((l.foldl (fun acc s =>
        match shapeKey m s with
        | none => acc
        | some k' => bucketAdd acc k' s) acc).map Prod.fst).Nodup := by
  induction l with
  | nil => intro acc h; exact h
  | cons s t ih =>
    intro acc h
    rw [List.foldl_cons]
    cases hk : shapeKey m s with
    | none => exact ih acc h
    | some k' => exact ih (bucketAdd acc k' s) (bucketAdd_keys_nodup acc k' s h)

theorem groupFold_nonempty (m : Model) (l : List Entity) :
    ∀ (acc : List (List String × List Entity)),
    (∀ g ∈ acc, g.2 ≠ []) →
    ∀ g ∈ l.foldl (fun acc s =>
        match shapeKey m s with
        | none => acc
        | some k' => bucketAdd acc k' s) acc, g.2 ≠ [] := by
  induction l with
  | nil => intro acc h; exact h
  | cons s t ih =>
    intro acc h
    rw [List.foldl_cons]
    cases hk : shapeKey m s with
    | none => exact ih acc h
    | some k' => exact ih (bucketAdd acc k' s) (bucketAdd_nonempty acc k' s h)

theorem groupShapes_bucket (m : Model) (k : List String) :
    bucketOf (groupShapes m) k =
      (m.byType "IfcShapeRepresentation").filter
        (fun s => shapeKey m s == some k) := by
  rw [groupShapes, groupFold_bucket m _ [] k]
  rfl

theorem groupShapes_keys_nodup (m : Model) :
    ((groupShapes m).map Prod.fst).Nodup := by
  rw [groupShapes]
  exact groupFold_keys_nodup m _ [] (by simp)

theorem groupShapes_nonempty (m : Model) :
    ∀ g ∈ groupShapes m, g.2 ≠ [] := by
  rw [groupShapes]
  exact groupFold_nonempty m _ [] (by simp)

/-- An assoc-list entry with no duplicate keys is its own bucket. -/
theorem entry_eq_bucketOf (acc : List (List String × List Entity))
    (hnd : (acc.map Prod.fst).Nodup) (g : List String × List Entity)
    (hg : g ∈ acc) : bucketOf acc g.1 = g.2 := by
  induction acc with
  | nil => cases hg
  | cons a t ih =>
    rw [List.map_cons, List.nodup_cons] at hnd
    rcases List.mem_cons.mp hg with rfl | hgt
    · simp [bucketOf, List.find?_cons]
    · have hne : (a.1 == g.1) = false := by
        refine beq_eq_false_iff_ne.mpr (fun h => ?_)
        exact hnd.1 (h ▸ List.mem_map_of_mem Prod.fst hgt)
      simp only [bucketOf, List.find?_cons, hne]
      exact ih hnd.2 hgt

/-- Every group of `groupShapes` is exactly the fingerprint class of its
key, in store order. -/
theorem groupShapes_entry (m : Model) (g : List String × List Entity)
    (hg : g ∈ groupShapes m) :
    g.2 = (m.byType "IfcShapeRepresentation").filter
      (fun s => shapeKey m s == some g.1) := by
  rw [← groupShapes_bucket m g.1]
  exact (entry_eq_bucketOf (groupShapes m) (groupShapes_keys_nodup m) g hg).symm

/-- `findSome?` on a list where at most one element can answer. -/
theorem findSome?_of_unique {α β : Type _} (l : List α) (f : α → Option β)
    (a : α) (b : β) (ha : a ∈ l) (hfa : f a = some b)
    (huniq : ∀ x ∈ l, f x ≠ none → x = a) :
    l.findSome? f = some b := by
  induction l with
  | nil => cases ha
  | cons x t ih =>
    rw [List.findSome?_cons]
    cases hfx : f x with
    | some c =>
      have hxa : x = a := huniq x (List.mem_cons_self x t) (by rw [hfx]; simp)
      subst hxa
      rw [hfx] at hfa
      exact hfa
    | none =>
      have hat : a ∈ t := by
        rcases List.mem_cons.mp ha with rfl | h
        · rw [hfx] at hfa; cases hfa
        · exact h
      exact ih hat (fun y hy hne => huniq y (List.mem_cons_of_mem x hy) hne)

/-- The second pass of `deduplicate_geometry` re-points a shape `d` onto
`o` exactly when both have the same (defined) fingerprint and `o` is the
first shape of that fingerprint class in store order, with `d` a later
one. -/
theorem mergeTarget_iff (m : Model)
    (hnd : (m.entities.map Entity.id).Nodup) (d o : Entity)
    (hd : d ∈ m.byType "IfcShapeRepresentation")
    (ho : o ∈ m.byType "IfcShapeRepresentation") :
    mergeTarget m d.id = some o.id ↔
      ∃ k, shapeKey m d = some k ∧ shapeKey m o = some k ∧
        ((m.byType "IfcShapeRepresentation").filter
          (fun s => shapeKey m s == some k)).head? = some o ∧ d ≠ o := by
  have hent : m.entities.Nodup := List.Nodup.of_map Entity.id hnd
  have hbts : (m.byType "IfcShapeRepresentation").Nodup :=
    List.Nodup.sublist (List.filter_sublist _) hent
  have hdent : d ∈ m.entities := (List.mem_filter.mp hd).1
  have hoent : o ∈ m.entities := (List.mem_filter.mp ho).1
  constructor
  · intro h
    rw [mergeTarget] at h
    obtain ⟨g, hg, hfg⟩ := List.exists_of_findSome?_eq_some h
    cases hg2 : g.2 with
    | nil => rw [hg2] at hfg; cases hfg
    | cons orig rest =>
      rw [hg2] at hfg
      have hfg' : (if (rest.any fun s => s.id == d.id) = true
          then some orig.id else none) = some o.id := hfg
      cases hany : rest.any (fun s => s.id == d.id) with
      | false =>
        rw [hany, if_neg Bool.false_ne_true] at hfg'
        cases hfg'
      | true =>
        rw [hany, if_pos rfl] at hfg'
        have hoid : orig.id = o.id := by injection hfg' 
        have hentry := groupShapes_entry m g hg
        rw [hg2] at hentry
        have horigf : orig ∈ (m.byType "IfcShapeRepresentation").filter
            (fun s => shapeKey m s == some g.1) := by
          rw [← hentry]; exact List.mem_cons_self _ _
        have horigbt := (List.mem_filter.mp horigf).1
        have horigent : orig ∈ m.entities := (List.mem_filter.mp horigbt).1
        have horigo : orig = o := List.inj_on_of_nodup_map hnd horigent hoent hoid
        obtain ⟨s, hs, hsid⟩ := List.any_eq_true.mp hany
        have hsid' : s.id = d.id := by simpa using hsid
        have hsf : s ∈ (m.byType "IfcShapeRepresentation").filter
            (fun s => shapeKey m s == some g.1) := by
          rw [← hentry]; exact List.mem_cons_of_mem _ hs
        have hsbt := (List.mem_filter.mp hsf).1
        have hsent : s ∈ m.entities := (List.mem_filter.mp hsbt).1
        have hsd : s = d := List.inj_on_of_nodup_map hnd hsent hdent hsid'
        refine ⟨g.1, ?_, ?_, ?_, ?_⟩
        · have := (List.mem_filter.mp hsf).2
          rw [hsd] at this
          simpa using this
        · have := (List.mem_filter.mp horigf).2
          rw [horigo] at this
          simpa using this
        · rw [← hentry, horigo]
          rfl
        · have hfilnd : ((m.byType "IfcShapeRepresentation").filter
              (fun s => shapeKey m s == some g.1)).Nodup :=
            List.Nodup.sublist (List.filter_sublist _) hbts
          rw [← hentry, List.nodup_cons] at hfilnd
          intro hde
          refine hfilnd.1 ?_
          rw [horigo, ← hde, ← hsd]
          exact hs
  · rintro ⟨k, hkd, hko, hhead, hne⟩
    obtain ⟨tl, hL⟩ := List.head?_eq_some_iff.mp hhead
    have hdL : d ∈ (m.byType "IfcShapeRepresentation").filter
        (fun s => shapeKey m s == some k) :=
      List.mem_filter.mpr ⟨hd, by rw [hkd]; simp⟩
    have hdtl : d ∈ tl := by
      rw [hL] at hdL
      rcases List.mem_cons.mp hdL with rfl | h
      · exact absurd rfl hne
      · exact h
    obtain ⟨g, hfind⟩ : ∃ g, (groupShapes m).find? (fun g => g.1 == k) = some g := by
      cases hf : (groupShapes m).find? (fun g => g.1 == k) with
      | none =>
        exfalso
        have : bucketOf (groupShapes m) k = [] := by rw [bucketOf, hf]; rfl
        rw [groupShapes_bucket, hL] at this
        cases this
      | some g => exact ⟨g, rfl⟩
    have hgmem : g ∈ groupShapes m := List.mem_of_find?_eq_some hfind
    have hgk : g.1 = k := by simpa using List.find?_some hfind
    have hg2 : g.2 = o :: tl := by
      rw [groupShapes_entry m g hgmem, hgk, ← hL]
    rw [mergeTarget]
    apply findSome?_of_unique (groupShapes m) _ g o.id hgmem
    · have hanytl : tl.any (fun s => s.id == d.id) = true :=
        List.any_eq_true.mpr ⟨d, hdtl, by simp⟩
      simp [hg2, hanytl]
    · intro x hx hfxne
      cases hx2 : x.2 with
      | nil => exact absurd (by simp only [hx2]) hfxne
      | cons orig rest =>
        cases hany : rest.any (fun s => s.id == d.id) with
        | false => exact absurd (by simp [hx2, hany]) hfxne
        | true =>
          obtain ⟨s, hs, hsid⟩ := List.any_eq_true.mp hany
          have hsid' : s.id = d.id := by simpa using hsid
          have hentry := groupShapes_entry m x hx
          rw [hx2] at hentry
          have hsf : s ∈ (m.byType "IfcShapeRepresentation").filter
              (fun s => shapeKey m s == some x.1) := by
            rw [← hentry]; exact List.mem_cons_of_mem _ hs
          have hsbt := (List.mem_filter.mp hsf).1
          have hsent : s ∈ m.entities := (List.mem_filter.mp hsbt).1
          have hsd : s = d := List.inj_on_of_nodup_map hnd hsent hdent hsid'
          have hkx : shapeKey m d = some x.1 := by
            have := (List.mem_filter.mp hsf).2
            rw [hsd] at this
            simpa using this
          have hx1k : x.1 = g.1 := by
            rw [hgk]
            have : some x.1 = some k := by rw [← hkx, hkd]
            injection this
          exact List.inj_on_of_nodup_map (groupShapes_keys_nodup m) hx hgmem hx1k

/-- C1, counterexample: on a model with no geometric representation
context and only geometry simplification enabled, the pass raises; the
claim says the pipeline records a zero count and `optimize` still returns
the statistics map, but `optimize_ifc` returns the wrapped error instead
of any statistics. -/
theorem optimizer_C1_counterexample :
    optimize_ifc emptyModel (some optsSimplifyOnly) =
      .error "Optimization failed: No IfcGeometricRepresentationContext found in the model." :=
  rfl

/-- C1, amended: a pass that throws is not caught per-pass; the exception
propagates to the outermost handler of `optimize_ifc`, which wraps it in
`RuntimeError("Optimization failed: ...")` — the whole call fails, no
zero count is recorded and no statistics map is returned. -/
theorem optimizer_C1_pass_error_aborts (m : Model) (opts : Options) (e : String)
    (h : runPasses opts m = .error e) :
    optimize_ifc m (some opts) = .error ("Optimization failed: " ++ e) := by
  simp only [optimize_ifc, Option.getD, h]

theorem optimizer_C1_pass_error_aborts_witness :
    optimize_ifc emptyModel (some optsSimplifyOnly) =
      .error ("Optimization failed: " ++
        "No IfcGeometricRepresentationContext found in the model.") :=
  optimizer_C1_pass_error_aborts emptyModel optsSimplifyOnly
    "No IfcGeometricRepresentationContext found in the model." rfl

/-- C2, counterexample: the claim says a boolean `false` disables a pass,
but an options record carrying `remove_small_elements: False` still runs
the small-volume pass (`float(False)` becomes the threshold `0.0`) and
records its statistics entry. -/
theorem optimizer_C2_counterexample :
    optimize_ifc emptyModel (some optsSmallFalse) = .ok [("small_elements", 0)] ∧
    Options.get? optsSmallFalse "remove_small_elements" = some (AttrValue.vbool false) :=
  ⟨rfl, rfl⟩

/-- C2, amended: a pass runs (its stats key appears) exactly when its
enabling test holds: truthiness of the option for the eight boolean
passes, presence of a non-`None` value (including boolean `False`) for
the small-volume pass, and a truthy value other than `"none"` for
simplification; unrecognized keys are ignored since only the known keys
are looked up. -/
theorem optimizer_C2_pass_enabling (opts : Options) (m : Model) (stats : Stats)
    (m1 : Model) (h : runPasses opts m = .ok (stats, m1))
    (p : PassSpec) (hp : p ∈ passTable) :
    p.stat ∈ stats.map Prod.fst ↔ p.enabled opts = true := by
  have hkeys := runPassList_keys passTable opts ([], m) stats m1 h
  rw [hkeys]
  simp only [List.map_nil, List.nil_append]
  constructor
  · intro hmem
    rw [List.mem_map] at hmem
    obtain ⟨q, hq, hqs⟩ := hmem
    have hqt : q ∈ passTable := (List.mem_filter.mp hq).1
    have hqe : q.enabled opts = true := (List.mem_filter.mp hq).2
    have hstats_nodup : (passTable.map PassSpec.stat).Nodup := by
      have htab : passTable.map PassSpec.stat =
        ["spaces", "metadata", "empty_attrs", "psets", "materials",
         "classifications", "small_elements", "orphans", "duplicate_geo",
         "spatial", "simplified_geo"] := rfl
      rw [htab]; decide
    have hqp : q = p := List.inj_on_of_nodup_map hstats_nodup hqt hp hqs
    rw [← hqp]; exact hqe
  · intro he
    exact List.mem_map_of_mem PassSpec.stat (List.mem_filter.mpr ⟨hp, he⟩)

theorem optimizer_C2_pass_enabling_witness :
    passMetadata.stat ∈ ([("metadata", (0 : Nat))] : Stats).map Prod.fst ↔
      passMetadata.enabled optsMetaOnly = true :=
  optimizer_C2_pass_enabling optsMetaOnly emptyModel [("metadata", 0)] emptyModel rfl
    passMetadata (by rw [passTable]; exact List.mem_cons_of_mem _ (List.mem_cons_self _ _))

/-- C9: the geometry-simplification pass is independent of the detail
level — the angle and distance tolerances derived from it (optimizer.py
lines 266-282) are never read afterwards, so for any two detail levels
(in particular low/medium/high) the synthesized geometry and the count
are identical. -/
theorem optimizer_C9_detail_level_independent :
    ∀ (m : Model) (d1 d2 : String), simplify_geometry m d1 = simplify_geometry m d2 :=
  fun _ _ _ => rfl

/-- C10: orphan pruning returns the length of the orphan list it
identified up front (zero inverse references, excluding project root and
ownership history) rather than the number of successful removals; on the
concrete model `mOrphanFails`, whose single orphan's removal raises, the
count is 1 while the entity is still in the store. -/
theorem optimizer_C10_orphan_count_identified :
    (∀ m : Model, ∃ m', remove_orphaned_entities m = .ok ((orphanList m).length, m')) ∧
    remove_orphaned_entities mOrphanFails = .ok (1, mOrphanFails) ∧
    mOrphanFails.entities.length = 1 :=
  ⟨fun m => ⟨_, rfl⟩, rfl, rfl⟩

/-- C3: enabled passes execute in the fixed declaration order of the
table — the statistics keys of any successful run form a subsequence of
the declared order (so orphan pruning never precedes property-set,
material or small-volume pruning, and spatial flattening never precedes
deduplication) — and any two option records with the same lookups produce
the identical run, so the order in which options were supplied is
irrelevant. -/
theorem optimizer_C3_fixed_order (o1 o2 : Options) (m : Model) (stats : Stats)
    (m1 : Model) (hopt : ∀ k, Options.get? o1 k = Options.get? o2 k)
    (h : runPasses o1 m = .ok (stats, m1)) :
    runPasses o2 m = .ok (stats, m1) ∧
      List.Sublist (stats.map Prod.fst)
        ["spaces", "metadata", "empty_attrs", "psets", "materials",
         "classifications", "small_elements", "orphans", "duplicate_geo",
         "spatial", "simplified_geo"] := by
  constructor
  · rw [runPasses, ← runPassList_congr passTable o1 o2 (passTable_agree o1 o2 hopt) ([], m)]
    exact h
  · have hkeys := runPassList_keys passTable o1 ([], m) stats m1 h
    rw [hkeys]
    simp only [List.map_nil, List.nil_append]
    have htab : passTable.map PassSpec.stat =
      ["spaces", "metadata", "empty_attrs", "psets", "materials",
       "classifications", "small_elements", "orphans", "duplicate_geo",
       "spatial", "simplified_geo"] := rfl
    rw [← htab]
    exact List.Sublist.map _ (List.filter_sublist _)

theorem optimizer_C3_fixed_order_witness :
    runPasses optsOrderTwo emptyModel = .ok ([("metadata", 0)], emptyModel) ∧
      List.Sublist (([("metadata", (0 : Nat))] : Stats).map Prod.fst)
        ["spaces", "metadata", "empty_attrs", "psets", "materials",
         "classifications", "small_elements", "orphans", "duplicate_geo",
         "spatial", "simplified_geo"] :=
  optimizer_C3_fixed_order optsOrderOne optsOrderTwo emptyModel [("metadata", 0)] emptyModel
    (by
      intro k
      by_cases h1 : ("remove_metadata" : String) = k
      · subst h1; rfl
      · by_cases h2 : ("remove_unused_spaces" : String) = k
        · subst h2; rfl
        · have b1 : (("remove_metadata" : String) == k) = false := beq_eq_false_iff_ne.mpr h1
          have b2 : (("remove_unused_spaces" : String) == k) = false := beq_eq_false_iff_ne.mpr h2
          simp [optsOrderOne, optsOrderTwo, Options.get?, b1, b2])
    rfl

/-- C4: metadata trimming keeps exactly the first ownership-history
record, removes every other one (and nothing else), and returns the
number removed; with no ownership history it removes nothing and returns
`0` (the `Nat` subtraction makes the count formula cover both cases). -/
theorem optimizer_C4_metadata_keeps_first (m : Model)
    (hf : ∀ i, m.removeFails i = false)
    (hnd : (m.entities.map Entity.id).Nodup) :
    ∃ m', remove_metadata m =
        .ok ((m.byType "IfcOwnerHistory").length - 1, m') ∧
      m'.byType "IfcOwnerHistory" = (m.byType "IfcOwnerHistory").take 1 ∧
      m'.entities = m.entities.filter (fun e =>
        !(((m.byType "IfcOwnerHistory").drop 1).any (fun h => h.id == e.id))) := by
  refine ⟨removeIds m ((m.byType "IfcOwnerHistory").drop 1),
    remove_metadata_eq m hf, ?_, rfl⟩
  rw [byType_removeIds]
  exact filter_not_any_drop_one _ (byType_ids_nodup m _ hnd)

theorem optimizer_C4_metadata_keeps_first_witness :
    ∃ m', remove_metadata mThreeHistories =
        .ok ((mThreeHistories.byType "IfcOwnerHistory").length - 1, m') ∧
      m'.byType "IfcOwnerHistory" = (mThreeHistories.byType "IfcOwnerHistory").take 1 ∧
      m'.entities = mThreeHistories.entities.filter (fun e =>
        !(((mThreeHistories.byType "IfcOwnerHistory").drop 1).any (fun h => h.id == e.id))) :=
  optimizer_C4_metadata_keeps_first mThreeHistories (fun _ => rfl) (by decide)

/-- C5, counterexample: an element whose computed volume is exactly `0`
is below the threshold `0.001`, yet the pass keeps it — Python's
`vol and vol < min_volume` treats the reported `0.0` as falsy — so
"removes exactly when the volume is below the threshold" fails. -/
theorem optimizer_C5_counterexample :
    remove_small_elements mVolZero (1/1000) = .ok (0, mVolZero) ∧
    mVolZero.volumeOf 1 = some 0 ∧ ((0 : ℚ) < 1/1000) :=
  ⟨rfl, rfl, by norm_num⟩

/-- C5, amended: an element with a representation is removed exactly when
the kernel reports a volume that is non-null, nonzero and below the
caller-supplied threshold (`smallRemovable`), and the count is the number
of such elements; the spec's concrete scenario (0.0005 removed, 0.01 kept
at threshold 0.001) is the witness. -/
theorem optimizer_C5_small_volume_pruning (m : Model) (minv : ℚ)
    (hf : ∀ i, m.removeFails i = false)
    (hnd : (m.entities.map Entity.id).Nodup)
    (hrep : ∀ e ∈ m.byType "IfcElement", "Representation" ∈ e.attrs.map Prod.fst) :
    ∃ m', remove_small_elements m minv =
        .ok (((m.byType "IfcElement").filter (fun e => smallRemovable m minv e)).length, m') ∧
      ∀ e ∈ m.entities,
        (e ∈ m'.entities ↔ ¬(e.isA "IfcElement" = true ∧ smallRemovable m minv e = true)) := by
  refine ⟨removeIds m ((m.byType "IfcElement").filter (fun e => smallRemovable m minv e)),
    remove_small_elements_eq m minv hf hrep, ?_⟩
  intro e he
  exact mem_removeIds_iff m "IfcElement" (fun e => smallRemovable m minv e) hnd e he

theorem optimizer_C5_small_volume_pruning_witness :
    ∃ m', remove_small_elements mTwoVolumes (1/1000) =
        .ok (((mTwoVolumes.byType "IfcElement").filter
          (fun e => smallRemovable mTwoVolumes (1/1000) e)).length, m') ∧
      ∀ e ∈ mTwoVolumes.entities,
        (e ∈ m'.entities ↔
          ¬(e.isA "IfcElement" = true ∧ smallRemovable mTwoVolumes (1/1000) e = true)) :=
  optimizer_C5_small_volume_pruning mTwoVolumes (1/1000) (fun _ => rfl) (by decide) (by decide)

/-- C8: a space is removed exactly when no inverse reference outside the
exempted kinds (placement and property-assignment edges) exists, judged
against the pass-entry state, and the count equals the number of spaces
removed. -/
theorem optimizer_C8_unused_space_pruning (m : Model)
    (hf : ∀ i, m.removeFails i = false)
    (hnd : (m.entities.map Entity.id).Nodup) :
    ∃ m', remove_unused_spaces m =
        .ok (((m.byType "IfcSpace").filter (fun s => spaceUnused m s)).length, m') ∧
      ∀ e ∈ m.entities,
        (e ∈ m'.entities ↔ ¬(e.isA "IfcSpace" = true ∧ spaceUnused m e = true)) := by
  refine ⟨removeIds m ((m.byType "IfcSpace").filter (fun s => spaceUnused m s)),
    remove_unused_spaces_eq m hf, ?_⟩
  intro e he
  exact mem_removeIds_iff m "IfcSpace" (fun s => spaceUnused m s) hnd e he

theorem optimizer_C8_unused_space_pruning_witness :
    ∃ m', remove_unused_spaces mSpaces =
        .ok (((mSpaces.byType "IfcSpace").filter (fun s => spaceUnused mSpaces s)).length, m') ∧
      ∀ e ∈ mSpaces.entities,
        (e ∈ m'.entities ↔ ¬(e.isA "IfcSpace" = true ∧ spaceUnused mSpaces e = true)) :=
  optimizer_C8_unused_space_pruning mSpaces (fun _ => rfl) (by decide)

/-- C6, counterexample: two shape representations whose `Items` lists are
empty have identical fingerprints (both empty) and identical item counts
and item-type sequences, so the claim demands a merge; the pass skips
shapes with no items (`if not items: continue`) and merges nothing — both
shapes survive unchanged. -/
theorem optimizer_C6_counterexample :
    deduplicate_geometry mEmptyShapes = .ok (0, mEmptyShapes) ∧
    specFingerprint mEmptyShapes shapeEmptyOne = specFingerprint mEmptyShapes shapeEmptyTwo ∧
    specItemTypes mEmptyShapes shapeEmptyOne = specItemTypes mEmptyShapes shapeEmptyTwo ∧
    shapeEmptyOne ∈ mEmptyShapes.entities ∧ shapeEmptyTwo ∈ mEmptyShapes.entities :=
  ⟨rfl, rfl, rfl, by decide, by decide⟩

/-- C6, amended: deduplication merges a later shape `d` into `o` exactly
when both have a defined (hence nonempty-items) fingerprint, the
fingerprints are identical, and `o` is the first shape of that
fingerprint class in store order; the fingerprint itself already carries
the item-type sequence, and no separate structural comparison is
performed.  Shapes with empty or unreadable item lists are never merged,
and differing fingerprints never merge. -/
theorem optimizer_C6_dedup_merge_rule (m : Model)
    (hnd : (m.entities.map Entity.id).Nodup) (d o : Entity)
    (hd : d ∈ m.byType "IfcShapeRepresentation")
    (ho : o ∈ m.byType "IfcShapeRepresentation") :
    mergeTarget m d.id = some o.id ↔
      ∃ k, shapeKey m d = some k ∧ shapeKey m o = some k ∧
        ((m.byType "IfcShapeRepresentation").filter
          (fun s => shapeKey m s == some k)).head? = some o ∧ d ≠ o :=
  mergeTarget_iff m hnd d o hd ho

theorem optimizer_C6_dedup_merge_rule_witness :
    mergeTarget mDupShapes
        (⟨2, "IfcShapeRepresentation", [], [("Items", .vrefList [4])]⟩ : Entity).id =
        some (⟨1, "IfcShapeRepresentation", [], [("Items", .vrefList [3])]⟩ : Entity).id ↔
      ∃ k, shapeKey mDupShapes
          ⟨2, "IfcShapeRepresentation", [], [("Items", .vrefList [4])]⟩ = some k ∧
        shapeKey mDupShapes
          ⟨1, "IfcShapeRepresentation", [], [("Items", .vrefList [3])]⟩ = some k ∧
        ((mDupShapes.byType "IfcShapeRepresentation").filter
          (fun s => shapeKey mDupShapes s == some k)).head? =
            some ⟨1, "IfcShapeRepresentation", [], [("Items", .vrefList [3])]⟩ ∧
        (⟨2, "IfcShapeRepresentation", [], [("Items", .vrefList [4])]⟩ : Entity) ≠
          ⟨1, "IfcShapeRepresentation", [], [("Items", .vrefList [3])]⟩ :=
  optimizer_C6_dedup_merge_rule mDupShapes (by decide)
    ⟨2, "IfcShapeRepresentation", [], [("Items", .vrefList [4])]⟩
    ⟨1, "IfcShapeRepresentation", [], [("Items", .vrefList [3])]⟩
    (by decide) (by decide)

/-- C7, counterexample: on a model whose single entity has an attribute
that is already `None`, running the pipeline (empty-attribute clearing
enabled) leaves the model unchanged and reports `empty_attrs = 1`; hence
the second identical run reports `1` again, not `0` — the pass re-counts
attributes already null. -/
theorem optimizer_C7_counterexample :
    ((runPasses optsEmptyOnly mNoneAttr) >>=
        (fun r => runPasses optsEmptyOnly r.2)) =
      .ok ([("empty_attrs", 1)], mNoneAttr) ∧ (1 : Nat) ≠ 0 :=
  ⟨rfl, by decide⟩

/-- C7, amended: second-run counts are not zero in general (see the
counterexample); but when the only enabled pass is metadata trimming, a
second identical run does find nothing left: it reports a zero count and
leaves the model unchanged. -/
theorem optimizer_C7_second_run_metadata_zero (m : Model)
    (hf : ∀ i, m.removeFails i = false)
    (hnd : (m.entities.map Entity.id).Nodup)
    (stats : Stats) (m1 : Model)
    (h : runPasses optsMetaOnly m = .ok (stats, m1)) :
    runPasses optsMetaOnly m1 = .ok ([("metadata", 0)], m1) := by
  have hm := runPasses_metaOnly m
  rw [remove_metadata_eq m hf, h] at hm
  have hm' : (Except.ok (stats, m1) : Except String (Stats × Model)) =
      .ok ([("metadata", (m.byType "IfcOwnerHistory").length - 1)],
        removeIds m ((m.byType "IfcOwnerHistory").drop 1)) := hm
  have hpair : (stats, m1) =
      ([("metadata", (m.byType "IfcOwnerHistory").length - 1)],
        removeIds m ((m.byType "IfcOwnerHistory").drop 1)) := by
    injection hm'
  have hm1 : m1 = removeIds m ((m.byType "IfcOwnerHistory").drop 1) :=
    congrArg Prod.snd hpair
  have hf1 : ∀ i, m1.removeFails i = false := fun i => by
    rw [hm1]; exact hf i
  have hbt1 : m1.byType "IfcOwnerHistory" = (m.byType "IfcOwnerHistory").take 1 := by
    rw [hm1, byType_removeIds]
    exact filter_not_any_drop_one _ (byType_ids_nodup m _ hnd)
  rw [runPasses_metaOnly m1, remove_metadata_eq m1 hf1, hbt1]
  cases hL : m.byType "IfcOwnerHistory" with
  | nil => simp [removeIds_nil]
  | cons h0 hs => simp [removeIds_nil]

theorem optimizer_C7_second_run_metadata_zero_witness :
    runPasses optsMetaOnly mThreeAfterMeta = .ok ([("metadata", 0)], mThreeAfterMeta) :=
  optimizer_C7_second_run_metadata_zero mThreeHistories (fun _ => rfl) (by decide)
    [("metadata", 2)] mThreeAfterMeta rfl
